import Mathlib

/-!
Verification of the rust-smtp repository's natural-language specification
against a shallow embedding of its source code.

Conventions used throughout this development:
* Rust `&str` / `&[u8]` values are embedded as `List Nat` of their UTF-8
  bytes (`strBytes` converts an ASCII Lean string literal), except in the
  DKIM-header and dot-stuffing sections where the code only manipulates
  whole characters and `List Char` / `String` is used.
* Fallible Rust functions returning `Result` become `Except SmtpError _`.
* A Rust function that can panic (byte-slicing a `&str` off a char
  boundary, indexing an empty `Vec`) is embedded with result type
  `Option _`, where `none` models the panic.
* Stateful loops become explicit state passing or structural recursion.
-/

deriving instance DecidableEq for Except

/-- UTF-8 bytes of an ASCII string (for ASCII characters the code point
equals the single UTF-8 byte). Only applied to ASCII literals. -/
def strBytes (s : String) : List Nat :=
  s.data.map Char.toNat

/-- Decimal digits of a positive number, most significant first; `fuel`
bounds the recursion depth (any `fuel ≥ n` is enough). -/
def natDecimalAux : Nat → Nat → List Nat
  | 0, _ => []
  | _ + 1, 0 => []
  | fuel + 1, n + 1 => natDecimalAux fuel ((n + 1) / 10) ++ [(n + 1) % 10]

/-- Decimal rendering of a natural number as its digit list, most
significant first, as Rust `format!("{}", n)` produces (no leading
zeros; `0` renders as `[0]`). -/
def natDecimal (n : Nat) : List Nat :=
  if n = 0 then [0] else natDecimalAux n n

/-!
Embedding of `src/src/transport/smtp/response.rs` (the hand-written
response parser module): `Severity`, `Category`, `Code`, `ResponseParser`
(here `ResponseBuilder`), `Response`.
-/

/-- Severity enum: first digit of an SMTP reply code (2..5). -/
inductive Severity
  | positiveCompletion
  | positiveIntermediate
  | transientNegativeCompletion
  | permanentNegativeCompletion
deriving DecidableEq

/-- Numeric value printed by `Display for Severity`. -/
def Severity.toNat : Severity → Nat
  | .positiveCompletion => 2
  | .positiveIntermediate => 3
  | .transientNegativeCompletion => 4
  | .permanentNegativeCompletion => 5

/-- Category enum: second digit of an SMTP reply code (0..5). -/
inductive Category
  | syntax0
  | information
  | connections
  | unspecified3
  | unspecified4
  | mailSystem
deriving DecidableEq

/-- Numeric value printed by `Display for Category`. -/
def Category.toNat : Category → Nat
  | .syntax0 => 0
  | .information => 1
  | .connections => 2
  | .unspecified3 => 3
  | .unspecified4 => 4
  | .mailSystem => 5

/-- A 3 digit SMTP response code (`struct Code`); `detail` is a `u8` in
the source, embedded as a `Nat` (parsed codes always have `detail ≤ 9`). -/
structure Code where
  severity : Severity
  category : Category
  detail : Nat
deriving DecidableEq

/-- Bytes of `Code::code()`, i.e. `format!("{}{}{}", severity, category,
detail)`: one digit for severity and category, decimal rendering of the
`u8` detail, all as ASCII bytes. -/
def codeBytes (c : Code) : List Nat :=
  ([c.severity.toNat, c.category.toNat] ++ natDecimal c.detail).map (· + 48)

/-- Parse result of `"2"|"3"|"4"|"5".parse::<Severity>()` from the single
ASCII byte of the sliced string. -/
def parseSeverity (b : Nat) : Option Severity :=
  if b = 50 then some .positiveCompletion
  else if b = 51 then some .positiveIntermediate
  else if b = 52 then some .transientNegativeCompletion
  else if b = 53 then some .permanentNegativeCompletion
  else none

/-- Parse result of `"0".."5".parse::<Category>()` from its ASCII byte. -/
def parseCategory (b : Nat) : Option Category :=
  if b = 48 then some .syntax0
  else if b = 49 then some .information
  else if b = 50 then some .connections
  else if b = 51 then some .unspecified3
  else if b = 52 then some .unspecified4
  else if b = 53 then some .mailSystem
  else none

/-- Parse result of a one-character `str::parse::<u8>()`: only an ASCII
decimal digit succeeds. -/
def parseDigit (b : Nat) : Option Nat :=
  if 48 ≤ b ∧ b ≤ 57 then some (b - 48) else none

/-- `Code::from_str` on a 3-byte slice: all three digit parses must
succeed, otherwise the single "Could not parse response code" error. -/
def parseCode (bytes : List Nat) : Option Code :=
  match bytes with
  | [b0, b1, b2] =>
    match parseSeverity b0, parseCategory b1, parseDigit b2 with
    | some s, some c, some d => some ⟨s, c, d⟩
    | _, _, _ => none
  | _ => none

/-- An SMTP reply (`struct Response`): code plus message lines (each line
a byte string). -/
structure Response where
  code : Code
  message : List (List Nat)
deriving DecidableEq

/-- `Response::is_positive`: severity is 2yz or 3yz. -/
def Response.isPositive (r : Response) : Bool :=
  match r.code.severity with
  | .positiveCompletion => true
  | .positiveIntermediate => true
  | _ => false

/-- `Response::has_code(code: u16)`: the source compares the decimal
string renderings, `self.code() == format!("{}", code)`. -/
def Response.hasCode (r : Response) (n : Nat) : Bool :=
  decide (codeBytes r.code = (natDecimal n).map (· + 48))

/-- Error type used by the embedded modules. `responseParsing` carries
the `&'static str` of `Error::ResponseParsing`; `client` and
`responseError` model `error::client` / `error::response` of the newer
connection module; `negativeResponse` models the conversion of a
non-positive reply into an error (that error enum's own file is not in
the sources; only the shape needed here is modelled). -/
inductive SmtpError
  | responseParsing (msg : String)
  | client (msg : String)
  | responseError (msg : String)
  | negativeResponse (resp : Response)
deriving DecidableEq

/-- Parser state (`struct ResponseParser`): optional code of the reply
being assembled plus the message lines collected so far. -/
structure ResponseBuilder where
  code : Option Code
  message : List (List Nat)
deriving DecidableEq

/-- `ResponseParser::default()`. -/
def ResponseBuilder.init : ResponseBuilder := ⟨none, []⟩

/-- Rust `str::is_char_boundary` at byte index `i`: start, end, or a byte
that is not a UTF-8 continuation byte. Byte-slicing a `&str` at a
non-boundary index panics. -/
def isCharBoundary (line : List Nat) (i : Nat) : Bool :=
  i == 0 || i == line.length ||
    match line.get? i with
    | some b => decide (b < 128) || decide (192 ≤ b)
    | none => false

/-- Shared tail of `ResponseParser::read_line`: after the code has been
checked or stored, push `line[4..]` when `line.len() > 4` and report
whether the 4th byte is `b'-'` (a continuation marker); shorter lines are
terminators with no pushed text. `line[4..]` panics (`none`) when byte 4
is not a char boundary. -/
def finishLine (st : ResponseBuilder) (line : List Nat) :
    Option (Except SmtpError (Bool × ResponseBuilder)) :=
  if 4 < line.length then
    if isCharBoundary line 4 then
      some (.ok (decide (line.get? 3 = some 45),
        ⟨st.code, st.message ++ [line.drop 4]⟩))
    else none
  else some (.ok (false, st))

/-- `ResponseParser::read_line`: rejects lines shorter than 3 bytes;
compares `line[0..3]` against a previously stored code (failing with the
"Response code has changed" error on mismatch) or parses and stores a new
code; then `finishLine`. Slicing `line[0..3]` needs a char boundary at
byte 3, and `Code::from_str` additionally slices at bytes 1 and 2;
`none` models the panic at a non-boundary index. -/
def readLine (st : ResponseBuilder) (line : List Nat) :
    Option (Except SmtpError (Bool × ResponseBuilder)) :=
  if line.length < 3 then
    some (.error (.responseParsing "Wrong code length (should be 3 digit)"))
  else
    match st.code with
    | some c =>
      if isCharBoundary line 3 then
        if codeBytes c = line.take 3 then finishLine st line
        else some (.error (.responseParsing
          "Response code has changed during a reponse"))
      else none
    | none =>
      if isCharBoundary line 3 then
        if isCharBoundary line 1 then
          if isCharBoundary line 2 then
            match parseCode (line.take 3) with
            | some c => finishLine ⟨some c, st.message⟩ line
            | none => some (.error (.responseParsing
                "Could not parse response code"))
          else none
        else none
      else none

/-- `ResponseParser::response()`. -/
def builderResponse (st : ResponseBuilder) : Except SmtpError Response :=
  match st.code with
  | some c => .ok ⟨c, st.message⟩
  | none => .error (.responseParsing
      "Incomplete response, could not read response code")

/-- `Client::get_reply` on a list of already CRLF-stripped lines: feed
lines to `read_line` while it reports a continuation, then build the
response and reject non-positive replies. An exhausted line list models
the stream yielding an empty read (which `read_line` rejects as too
short). -/
def getReply (st : ResponseBuilder) : List (List Nat) →
    Option (Except SmtpError Response)
  | [] => some (.error (.responseParsing "Wrong code length (should be 3 digit)"))
  | l :: rest =>
    match readLine st l with
    | none => none
    | some (.error e) => some (.error e)
    | some (.ok (true, st')) => getReply st' rest
    | some (.ok (false, st')) =>
      some (match builderResponse st' with
        | .error e => .error e
        | .ok resp =>
          if resp.isPositive then .ok resp else .error (.negativeResponse resp))

/-!
Embedding of `src/src/transport/smtp/extension.rs`: supported ESMTP
keywords and `ServerInfo::from_response`.
-/

/-- SASL mechanisms known to the capability parser. The authentication
module itself is not among the sources; only the two names the keyword
parser matches (`PLAIN`, `CRAM-MD5`) are needed. -/
inductive Mechanism
  | plain
  | cramMd5
deriving DecidableEq

/-- Supported ESMTP keywords (`enum Extension`). -/
inductive Extension
  | eightBitMime
  | smtpUtfEight
  | startTls
  | authentication (mechanism : Mechanism)
deriving DecidableEq

/-- `HashSet::insert`, observed through membership: the feature list is a
model of the unordered feature set, kept duplicate-free. -/
def insertFeature (fs : List Extension) (e : Extension) : List Extension :=
  if fs.contains e then fs else fs ++ [e]

/-- ASCII whitespace bytes recognized by `str::split_whitespace` (the
inputs handled here are ASCII, so the Unicode cases do not arise). -/
def isWsByte (b : Nat) : Bool :=
  b == 9 || b == 10 || b == 11 || b == 12 || b == 13 || b == 32

/-- `str::split_whitespace` on a byte string: maximal runs of
non-whitespace bytes, in order, empties dropped. -/
def splitWs (l : List Nat) : List (List Nat) :=
  let p := l.foldr
    (fun b (p : List (List Nat) × List Nat) =>
      if isWsByte b then
        if p.2.isEmpty then p else (p.2 :: p.1, [])
      else (p.1, b :: p.2))
    ([], [])
  if p.2.isEmpty then p.1 else p.2 :: p.1

/-- Information about an SMTP server (`struct ServerInfo`): banner name
and the set of supported features. -/
structure ServerInfo where
  name : List Nat
  features : List Extension
deriving DecidableEq

/-- One iteration of the keyword loop in `ServerInfo::from_response`:
`8BITMIME`, `SMTPUTF8` and `STARTTLS` are inserted, `AUTH` walks its
remaining tokens inserting `PLAIN` / `CRAM-MD5`, anything else (notably
`SIZE` and `PIPELINING`) is ignored. -/
def applyKeyword (fs : List Extension) (key : List Nat)
    (args : List (List Nat)) : List Extension :=
  if key = strBytes "8BITMIME" then insertFeature fs .eightBitMime
  else if key = strBytes "SMTPUTF8" then insertFeature fs .smtpUtfEight
  else if key = strBytes "STARTTLS" then insertFeature fs .startTls
  else if key = strBytes "AUTH" then
    args.foldl
      (fun acc m =>
        if m = strBytes "PLAIN" then
          insertFeature acc (.authentication .plain)
        else if m = strBytes "CRAM-MD5" then
          insertFeature acc (.authentication .cramMd5)
        else acc)
      fs
  else fs

/-- The `for line in response.message()` loop: each line is split on
whitespace and `splitted[0]` is matched; indexing an empty split panics
(`none`), as the source indexes the `Vec` unconditionally. -/
def processLines (fs : List Extension) :
    List (List Nat) → Option (List Extension)
  | [] => some fs
  | line :: rest =>
    match splitWs line with
    | [] => none
    | key :: args => processLines (applyKeyword fs key args) rest

/-- `ServerInfo::from_response`: the hostname is the first whitespace
token of message line 0 (`Response::first_word`, failing with a
`ResponseParsing` error when absent), then every message line (line 0
included) runs through the keyword loop. -/
def fromResponse (resp : Response) : Option (Except SmtpError ServerInfo) :=
  match resp.message with
  | [] => some (.error (.responseParsing "Could not read server name"))
  | m0 :: _ =>
    match (splitWs m0).head? with
    | none => some (.error (.responseParsing "Could not read server name"))
    | some name =>
      match processLines [] resp.message with
      | none => none
      | some fs => some (.ok ⟨name, fs⟩)

/-- `ServerInfo::supports_feature`. -/
def supportsFeature (si : ServerInfo) (e : Extension) : Bool :=
  si.features.contains e

/-!
Embedding of `SmtpConnection::send` from
`src/src/transport/smtp/client/connection.rs`, with a trace of the
commands written to the wire. `Envelope` and its
`has_non_ascii_addresses` live in a module that is not among the
sources; they are modelled from the spec: an envelope is UTF-8 iff any
address contains a byte ≥ 0x80.
-/

/-- MAIL parameters used by `send` (the two the function can push). -/
inductive MailParameter
  | smtpUtfEight
  | bodyEightBitMime
deriving DecidableEq

/-- Wire commands issued by `send`, recorded abstractly. -/
inductive SmtpCommand
  | mail (reversePath : Option (List Nat)) (params : List MailParameter)
  | rcpt (forwardPath : List Nat)
  | data
  | messageBytes (body : List Nat)
deriving DecidableEq

/-- Modelled from the spec: an SMTP envelope, a reverse-path (zero or one
sender) and a forward-path (recipients), addresses as byte strings. -/
structure Envelope where
  forward : List (List Nat)
  reverse : Option (List Nat)
deriving DecidableEq

/-- Modelled from the spec: an envelope is UTF-8 iff any of its addresses
contains a byte ≥ 0x80 (`Envelope::has_non_ascii_addresses`). -/
def Envelope.hasNonAsciiAddresses (env : Envelope) : Bool :=
  ((match env.reverse with | some a => [a] | none => []) ++ env.forward).any
    (fun a => a.any (fun b => decide (128 ≤ b)))

/-- Run a command list against a server oracle (`srv i` is the outcome
of the i-th `self.command(..)` call): commands are written one at a time
and the first error aborts, as `try_smtp!` does. Returns the commands
actually written and the error, if any. -/
def execCmds (srv : Nat → Except SmtpError Response) :
    List SmtpCommand → Nat → List SmtpCommand × Option SmtpError
  | [], _ => ([], none)
  | c :: cs, i =>
    match srv i with
    | .error e => ([c], some e)
    | .ok _ =>
      let r := execCmds srv cs (i + 1)
      (c :: r.1, r.2)

/-- `SmtpConnection::send`: reject non-ASCII envelopes without SMTPUTF8
and non-ASCII bodies without 8BITMIME (both `error::client`, before any
command is written), then MAIL, one RCPT per recipient, DATA, and the
message bytes; the final reply is the transaction outcome. -/
def sendSmtp (si : ServerInfo) (env : Envelope) (email : List Nat)
    (srv : Nat → Except SmtpError Response) :
    List SmtpCommand × Except SmtpError Response :=
  if env.hasNonAsciiAddresses && !(supportsFeature si .smtpUtfEight) then
    ([], .error (.client
      "Envelope contains non-ascii chars but server does not support SMTPUTF8"))
  else
    let mailOptions :=
      if env.hasNonAsciiAddresses then [MailParameter.smtpUtfEight] else []
    if !(email.all (fun b => decide (b < 128))) &&
        !(supportsFeature si .eightBitMime) then
      ([], .error (.client
        "Message contains non-ascii chars but server does not support 8BITMIME"))
    else
      let mailOptions := mailOptions ++
        (if email.all (fun b => decide (b < 128)) then []
         else [MailParameter.bodyEightBitMime])
      let cmds := SmtpCommand.mail env.reverse mailOptions ::
        (env.forward.map SmtpCommand.rcpt ++ [SmtpCommand.data])
      let r := execCmds srv cmds 0
      match r.2 with
      | some e => (r.1, .error e)
      | none => (r.1 ++ [SmtpCommand.messageBytes email], srv cmds.length)

/-!
Embedding of the SASL challenge loop of `SmtpConnection::auth`. The
server behaviour is an oracle `srv` (the reply to the i-th command: the
initial AUTH for i = 0, the i-th challenge answer afterwards) and
`fin i` is `state.is_finished()` when the i-th reply is examined.
-/

/-- The `error::response("Unexpected number of challenges")` value,
returned both when the counter reaches 0 and when the mechanism believes
it already finished. -/
def tooManyChallenges : SmtpError :=
  .responseError "Unexpected number of challenges"

/-- The `while response.has_code(334)` loop with its decrementing
`challenges` counter: the `challenges == 0 || state.is_finished()` guard
becomes a match on the counter followed by the `fin` test (identical
outcome, same error either way). -/
def authLoop (srv : Nat → Response) (fin : Nat → Bool) :
    Nat → Nat → Except SmtpError Response
  | challenges, i =>
    if (srv i).hasCode 334 then
      match challenges with
      | 0 => .error tooManyChallenges
      | ch + 1 =>
        if fin i then .error tooManyChallenges
        else authLoop srv fin ch (i + 1)
    else .ok (srv i)

/-- `auth` after the initial AUTH command: `challenges` starts at 10, the
first examined reply is `srv 0`. -/
def smtpAuth (srv : Nat → Response) (fin : Nat → Bool) :
    Except SmtpError Response :=
  authLoop srv fin 10 0

/-!
Embedding of `src/src/message/dkim.rs` body canonicalization
(`dkim_canonicalize_body`). Simple mode is the single regex replacement
`(\r\n)+$` → `\r\n`: the maximal trailing run of CRLFs, when nonempty,
collapses to one CRLF; bodies are byte strings.
-/

/-- Drop the leading run of LF-CR pairs of a reversed body (i.e. the
trailing CRLF run of the body). -/
def stripCrlfRev : List Nat → List Nat
  | [] => []
  | [b] => [b]
  | a :: b :: rest =>
    if a = 10 ∧ b = 13 then stripCrlfRev rest else a :: b :: rest

/-- `dkim_canonicalize_body` in `Simple` mode: replace the anchored match
of `(\r\n)+$` by a single CRLF; a body with no trailing CRLF (the empty
body included) has no match and is returned unchanged. -/
def dkimCanonicalizeBodySimple (body : List Nat) : List Nat :=
  match body.reverse with
  | 10 :: 13 :: rest => (stripCrlfRev rest).reverse ++ [13, 10]
  | _ => body

/-- Does a byte string end with CRLF? -/
def endsWithCrlf (l : List Nat) : Bool :=
  match l.reverse with
  | 10 :: 13 :: _ => true
  | _ => false

/-- Does a byte string end with two CRLFs? -/
def endsWithDoubleCrlf (l : List Nat) : Bool :=
  match l.reverse with
  | 10 :: 13 :: 10 :: 13 :: _ => true
  | _ => false

/-!
Embedding of DKIM header canonicalization: `Headers::find_header` /
`get_raw` from `src/src/message/header/mod.rs` and
`dkim_canonicalize_headers` / `dkim_canonicalize_header_value` from
`src/src/message/dkim.rs`. Header names and values are ASCII strings
here; a header list may contain several entries with the same name (the
spec's `Message` permits duplicates per name; the `append_raw` used by
the signer simply pushes).
-/

/-- ASCII lowercasing of one character (`eq_ignore_ascii_case` /
`to_lowercase` on the ASCII names used here). -/
def asciiLower (c : Char) : Char :=
  if 'A' ≤ c ∧ c ≤ 'Z' then Char.ofNat (c.toNat + 32) else c

/-- `str::eq_ignore_ascii_case`. -/
def eqIgnoreAsciiCase (a b : String) : Bool :=
  a.data.map asciiLower == b.data.map asciiLower

/-- `str::to_lowercase` restricted to ASCII input. -/
def lowercaseAscii (s : String) : String :=
  String.mk (s.data.map asciiLower)

/-- One stored header: name and raw value (`struct HeaderValue`; the
RFC 2047 encoded form is produced by an external crate and plays no role
in the functions embedded here). -/
structure HeaderValue where
  name : String
  value : String
deriving DecidableEq

/-- `Headers::find_header`: `self.headers.iter().find(..)` — the FIRST
entry whose name matches case-insensitively. -/
def findHeader (hs : List HeaderValue) (name : String) : Option HeaderValue :=
  hs.find? (fun hv => eqIgnoreAsciiCase name hv.name)

/-- `Headers::get_raw`. -/
def getRaw (hs : List HeaderValue) (name : String) : Option String :=
  (findHeader hs name).map (fun hv => hv.value)

/-- `enum DkimCanonicalizationType`. -/
inductive DkimCanonicalizationType
  | simple
  | relaxed
deriving DecidableEq

/-- Delete every CRLF pair (regex `\r\n` → `""`, left-to-right
non-overlapping). -/
def removeCrlfPairs : List Char → List Char
  | '\r' :: '\n' :: rest => removeCrlfPairs rest
  | c :: rest => c :: removeCrlfPairs rest
  | [] => []

/-- Space or horizontal tab (the regex class `[\t ]`). -/
def isSpaceOrTab (c : Char) : Bool :=
  c == ' ' || c == '\t'

/-- Collapse each maximal run of spaces/tabs to one space (regex
`[\t ]+` → `" "`): within a run every character but the last is dropped,
the last becomes the single space. -/
def collapseWsRuns : List Char → List Char
  | [] => []
  | c :: rest =>
    if isSpaceOrTab c then
      match rest with
      | [] => [' ']
      | d :: _ =>
        if isSpaceOrTab d then collapseWsRuns rest
        else ' ' :: collapseWsRuns rest
    else c :: collapseWsRuns rest

/-- ASCII whitespace trimmed by `str::trim_end` (the values handled here
are ASCII). -/
def isRustWhitespace (c : Char) : Bool :=
  c == ' ' || c == '\t' || c == '\n' || c == '\r' || c == '\x0b' || c == '\x0c'

/-- `str::trim_end`. -/
def trimEndWs (l : List Char) : List Char :=
  (l.reverse.dropWhile isRustWhitespace).reverse

/-- `dkim_canonicalize_header_value`: identity in simple mode; in relaxed
mode drop CRLF folds, collapse space/tab runs, trim the end, append
CRLF. -/
def dkimCanonicalizeHeaderValue (value : String)
    (t : DkimCanonicalizationType) : String :=
  match t with
  | .simple => value
  | .relaxed =>
    String.mk (trimEndWs (collapseWsRuns (removeCrlfPairs value.data))) ++ "\r\n"

/-- `dkim_canonicalize_headers`: walk the configured name list in order,
look each name up with `get_raw` (lowercased first in relaxed mode),
silently skipping missing names. The relaxed branch writes
`name:value\r\n` directly; the simple branch goes through a `Headers`
value whose `Display` is `Name: encoded-value\r\n` — the encoding is an
external crate, so the simple rendering `Name: value\r\n` here follows
the spec's words for it. -/
def dkimCanonicalizeHeaders (headersList : List String)
    (mailHeaders : List HeaderValue) (t : DkimCanonicalizationType) : String :=
  match headersList with
  | [] => ""
  | h :: rest =>
    let h' := match t with
      | .simple => h
      | .relaxed => lowercaseAscii h
    (match getRaw mailHeaders h' with
     | some v =>
       match t with
       | .simple => h' ++ ": " ++ dkimCanonicalizeHeaderValue v .simple ++ "\r\n"
       | .relaxed => h' ++ ":" ++ dkimCanonicalizeHeaderValue v .relaxed
     | none => "") ++ dkimCanonicalizeHeaders rest mailHeaders t

/-- Spec-side description of lookup by LAST occurrence, used to compare
`get_raw` against the claim's words. -/
def lastOccurrenceValue (hs : List HeaderValue) (name : String) :
    Option String :=
  ((hs.reverse).find? (fun hv => eqIgnoreAsciiCase name hv.name)).map
    (fun hv => hv.value)

/-!
Embedding of `escape_dot` and `Client::message` from
`src/src/transport/smtp/client/mod.rs`. The message is sent as
`escape_dot(body)` followed by `MESSAGE_ENDING`; that constant's file is
not among the sources, its value CRLF `.` CRLF is the spec's DATA
terminator.
-/

/-- `str::replace("\r.", "\r..")`: left-to-right, non-overlapping,
scanning resumes after each replacement. -/
def escCR : List Char → List Char
  | [] => []
  | [c] => [c]
  | c :: d :: rest =>
    if c = '\r' ∧ d = '.' then '\r' :: '.' :: '.' :: escCR rest
    else c :: escCR (d :: rest)

/-- `str::replace("\n.", "\n..")`. -/
def escLF : List Char → List Char
  | [] => []
  | [c] => [c]
  | c :: d :: rest =>
    if c = '\n' ∧ d = '.' then '\n' :: '.' :: '.' :: escLF rest
    else c :: escLF (d :: rest)

/-- `escape_dot`: prepend a dot when the string starts with one, then the
two replacements. -/
def escapeDot (s : List Char) : List Char :=
  escLF (escCR (match s with | '.' :: _ => '.' :: s | _ => s))

/-- `MESSAGE_ENDING`, the DATA terminator CRLF `.` CRLF. -/
def messageEnding : List Char := ['\r', '\n', '.', '\r', '\n']

/-- `Client::message` wire bytes: dot-stuffed body then the terminator,
unconditionally. -/
def clientMessageWire (body : List Char) : List Char :=
  escapeDot body ++ messageEnding

/-- Is this character a line break (CR or LF)? -/
def isLineBreak (c : Char) : Bool :=
  c == '\r' || c == '\n'

/-- Spec-side dot-stuffing, one pass: a dot at a line start (position 0,
or right after CR or LF) is doubled; all other bytes pass through. -/
def dotStuffGo (lineStart : Bool) : List Char → List Char
  | [] => []
  | c :: rest =>
    if lineStart && c == '.' then '.' :: '.' :: dotStuffGo false rest
    else c :: dotStuffGo (isLineBreak c) rest

/-- Spec-side dot-stuffing of a whole body (the first character is at a
line start). -/
def dotStuffSpec (s : List Char) : List Char :=
  dotStuffGo true s

/-!
Embedding of the `DkimConfig` constructors from
`src/src/message/dkim.rs`. Key material parsing is an external crate;
`DkimSigningKey::new` is embedded by which variant it constructs (the
claim under scrutiny is about variant/tag agreement only).
-/

/-- `enum DkimSigningAlgorithm`. -/
inductive DkimSigningAlgorithm
  | rsa
  | ed25519
deriving DecidableEq

/-- `enum DkimSigningKey`: which kind of parsed key is held. -/
inductive DkimSigningKey
  | rsa (pem : String)
  | ed25519 (base64Key : String)
deriving DecidableEq

/-- `DkimSigningKey::new`: the algorithm argument selects the variant
(and the parser applied to the key material). -/
def DkimSigningKey.new (privateKey : String)
    (algorithm : DkimSigningAlgorithm) : DkimSigningKey :=
  match algorithm with
  | .rsa => .rsa privateKey
  | .ed25519 => .ed25519 privateKey

/-- `struct DkimCanonicalization`: the header/body mode pair. -/
structure DkimCanonicalizationPair where
  header : DkimCanonicalizationType
  body : DkimCanonicalizationType
deriving DecidableEq

/-- `struct DkimConfig`. -/
structure DkimConfig where
  selector : String
  domain : String
  privateKey : DkimSigningKey
  headers : List String
  canonicalization : DkimCanonicalizationPair
  signingAlgorithm : DkimSigningAlgorithm
deriving DecidableEq

/-- `DkimConfig::default_config`: RSA key, RSA tag, default header list,
simple/relaxed canonicalization. -/
def DkimConfig.defaultConfig (selector domain privateKey : String) :
    DkimConfig :=
  ⟨selector, domain, DkimSigningKey.new privateKey .rsa,
    ["From", "Subject", "To", "Date"], ⟨.simple, .relaxed⟩, .rsa⟩

/-- `DkimConfig::update_key`: both the tag and the key are rebuilt from
the given algorithm. -/
def DkimConfig.updateKey (cfg : DkimConfig) (privateKey : String)
    (algorithm : DkimSigningAlgorithm) : DkimConfig :=
  { cfg with
    signingAlgorithm := algorithm
    privateKey := DkimSigningKey.new privateKey algorithm }

/-- `DkimConfig::new`: the source passes the literal
`DkimSigningAlgorithm::Rsa` to `DkimSigningKey::new` while storing the
caller's `signing_algorithm` as the tag. -/
def DkimConfig.new (selector domain privateKey : String)
    (headers : List String) (canonicalization : DkimCanonicalizationPair)
    (signingAlgorithm : DkimSigningAlgorithm) : DkimConfig :=
  ⟨selector, domain, DkimSigningKey.new privateKey .rsa, headers,
    canonicalization, signingAlgorithm⟩

/-- The algorithm a stored key variant corresponds to. -/
def keyAlgorithm : DkimSigningKey → DkimSigningAlgorithm
  | .rsa _ => .rsa
  | .ed25519 _ => .ed25519

/-- The spec's invariant: the algorithm tag and the key variant agree. -/
def algorithmAgrees (cfg : DkimConfig) : Bool :=
  keyAlgorithm cfg.privateKey == cfg.signingAlgorithm

/-!
Theorems. Claims C2, C8 and C10 concern the response parser.
-/

/-- The fuel-based digit computation agrees with `Nat.digits`. -/
theorem natDecimalAux_eq_digits (fuel n : Nat) (hn : 0 < n) (hf : n ≤ fuel) :
    natDecimalAux fuel n = (Nat.digits 10 n).reverse := by
  induction fuel generalizing n with
  | zero => omega
  | succ fuel ih =>
    match n, hn with
    | n + 1, _ =>
      rw [natDecimalAux, Nat.digits_def' (by norm_num) (Nat.succ_pos n),
        List.reverse_cons]
      by_cases h : (n + 1) / 10 = 0
      · rw [h, Nat.digits_zero, List.reverse_nil]
        cases fuel <;> rfl
      · rw [ih ((n + 1) / 10) (Nat.pos_of_ne_zero h) (by omega)]

/-- `natDecimal` agrees with the Mathlib digit list. -/
theorem natDecimal_eq_digits (n : Nat) (hn : 0 < n) :
    natDecimal n = (Nat.digits 10 n).reverse := by
  rw [natDecimal, if_neg (by omega), natDecimalAux_eq_digits n n hn le_rfl]

/-- The single-digit case of the decimal rendering. -/
theorem natDecimal_of_le_nine (d : Nat) (hd : d ≤ 9) : natDecimal d = [d] := by
  interval_cases d <;> rfl

/-- Three-digit decimal expansions, little-endian as `Nat.digits` yields. -/
theorem digits_three (s c d : Nat) (hs0 : 0 < s) (hs : s < 10) (hc : c < 10)
    (hd : d < 10) : Nat.digits 10 (100 * s + 10 * c + d) = [d, c, s] := by
  rw [Nat.digits_def' (b := 10) (by norm_num) (by omega)]
  have h1 : (100 * s + 10 * c + d) % 10 = d := by omega
  have h2 : (100 * s + 10 * c + d) / 10 = 10 * s + c := by omega
  rw [h1, h2, Nat.digits_def' (by norm_num) (by omega)]
  have h3 : (10 * s + c) % 10 = c := by omega
  have h4 : (10 * s + c) / 10 = s := by omega
  rw [h3, h4, Nat.digits_def' (by norm_num) hs0]
  have h5 : s % 10 = s := by omega
  have h6 : s / 10 = 0 := by omega
  rw [h5, h6, Nat.digits_zero]

/-- Severity's printed digit lies in 2..5. -/
theorem Severity.toNat_bounds (s : Severity) : 2 ≤ s.toNat ∧ s.toNat ≤ 5 := by
  cases s <;> simp [Severity.toNat]

/-- Category's printed digit lies in 0..5. -/
theorem Category.toNat_le (c : Category) : c.toNat ≤ 5 := by
  cases c <;> simp [Category.toNat]

/-- Mapping `(· + 48)` over digit lists is injective. -/
theorem map_add48_inj {a b : List Nat} (h : a.map (· + 48) = b.map (· + 48)) :
    a = b :=
  List.map_injective_iff.mpr (fun x y hxy => by omega) h

/-- C2. All lines of one reply must carry the same three-digit code: once
the parser holds a code, a line (long enough to be sliced, and sliceable
without panicking) whose first three bytes differ is rejected with the
code-changed `ResponseParsing` error, and no `Response` is produced; in
particular the reply starting `250-foo` / `251 bar` is rejected. -/
theorem claim_c2_code_continuity :
    (∀ (st : ResponseBuilder) (c : Code) (line : List Nat),
      st.code = some c → 3 ≤ line.length → isCharBoundary line 3 = true →
      codeBytes c ≠ line.take 3 →
      readLine st line = some (.error (.responseParsing
        "Response code has changed during a reponse"))) ∧
    getReply .init [strBytes "250-foo", strBytes "251 bar"] =
      some (.error (.responseParsing
        "Response code has changed during a reponse")) := by
  constructor
  · intro st c line hst hlen hb hne
    rw [readLine, if_neg (by omega), hst]
    simp only [hb, if_true, if_neg hne]
  · decide

/-- Witness for C2 at a concrete parser state and line. -/
theorem claim_c2_witness :
    readLine ⟨some ⟨.positiveCompletion, .mailSystem, 0⟩, [strBytes "foo"]⟩
      (strBytes "251 bar") =
    some (.error (.responseParsing
      "Response code has changed during a reponse")) :=
  claim_c2_code_continuity.1 _ ⟨.positiveCompletion, .mailSystem, 0⟩ _
    rfl (by decide) (by decide) (by decide)

/-- C8. `Response::has_code(n)` holds exactly when `n` is the integer
`100*severity + 10*category + detail`, for every natural `n` — the string
comparison in the source has integer semantics because a reply code's
rendering never has leading zeros. Hypothesis `detail ≤ 9` holds for
every parsed response (the detail digit comes from one ASCII digit). -/
theorem claim_c8_has_code_integer (r : Response) (n : Nat)
    (hd : r.code.detail ≤ 9) :
    r.hasCode n = true ↔
      n = 100 * r.code.severity.toNat + 10 * r.code.category.toNat +
        r.code.detail := by
  obtain ⟨hs2, hs5⟩ := r.code.severity.toNat_bounds
  have hc5 := r.code.category.toNat_le
  rw [Response.hasCode, decide_eq_true_eq]
  rw [codeBytes, natDecimal_of_le_nine _ hd]
  have hmap : ([r.code.severity.toNat, r.code.category.toNat] ++ [r.code.detail]).map (· + 48) =
      (natDecimal n).map (· + 48) ↔
      [r.code.severity.toNat, r.code.category.toNat, r.code.detail] = natDecimal n := by
    constructor
    · exact fun h => map_add48_inj h
    · intro h; rw [← h]; rfl
  rw [hmap]
  constructor
  · intro h
    have hn0 : n ≠ 0 := by
      intro h0
      rw [h0] at h
      simp [natDecimal] at h
    rw [natDecimal_eq_digits n (Nat.pos_of_ne_zero hn0)] at h
    have hdig : Nat.digits 10 n =
        [r.code.detail, r.code.category.toNat, r.code.severity.toNat] := by
      rw [← List.reverse_reverse (Nat.digits 10 n), ← h]
      rfl
    conv_lhs => rw [← Nat.ofDigits_digits 10 n, hdig]
    simp [Nat.ofDigits]
    ring
  · intro h
    subst h
    rw [natDecimal_eq_digits _ (by omega),
      digits_three _ _ _ (by omega) (by omega) (by omega) (by omega)]
    rfl

/-- Witness for C8: a concrete 241 reply. -/
theorem claim_c8_witness :
    Response.hasCode ⟨⟨.positiveCompletion, .unspecified4, 1⟩, []⟩ 241 = true :=
  (claim_c8_has_code_integer ⟨⟨.positiveCompletion, .unspecified4, 1⟩, []⟩ 241
    (by decide)).mpr (by norm_num [Severity.toNat, Category.toNat])

/-- C10. `read_line` is claimed never to panic, but slicing `line[0..3]`
panics when byte 3 is not a char boundary: the 4-byte line `"25é"`
(bytes 50, 53, 195, 169) aborts the process (`none` models the panic),
while well-formed short lines such as `"250"` do return a value. -/
theorem claim_c10_read_line_panics :
    readLine .init [50, 53, 195, 169] = none ∧
    readLine .init (strBytes "250") =
      some (.ok (false, ⟨some ⟨.positiveCompletion, .mailSystem, 0⟩, []⟩)) := by
  decide

/-- The challenge loop errors whenever the server's next `ch + 1` replies
all carry code 334: the counter reaches 0 and the guard fires. -/
theorem authLoop_all334 (srv : Nat → Response) (fin : Nat → Bool) :
    ∀ ch i, (∀ j, j ≤ ch → (srv (i + j)).hasCode 334 = true) →
      authLoop srv fin ch i = .error tooManyChallenges := by
  intro ch
  induction ch with
  | zero =>
    intro i h
    have h0 : (srv i).hasCode 334 = true := by simpa using h 0 (by omega)
    simp [authLoop, h0]
  | succ ch ih =>
    intro i h
    have h0 : (srv i).hasCode 334 = true := by simpa using h 0 (by omega)
    rw [authLoop]
    simp only [h0, if_true]
    by_cases hf : fin i = true
    · simp [hf]
    · simp only [hf, if_false, Bool.false_eq_true]
      exact ih (i + 1) (fun j hj => by
        have hh := h (j + 1) (by omega)
        rwa [show i + (j + 1) = i + 1 + j by omega] at hh)

/-- C5. The SASL loop answers at most 10 consecutive 334 challenges: when
the reply to the initial AUTH and to each of the first 10 answers all
carry code 334, `auth` stops with the `TooManyChallenges` error
(`error::response("Unexpected number of challenges")`) instead of
continuing — in particular the loop terminates for every server
behaviour, the embedded loop being total by the decreasing counter. -/
theorem claim_c5_challenge_cap (srv : Nat → Response) (fin : Nat → Bool)
    (h : ∀ i, i ≤ 10 → (srv i).hasCode 334 = true) :
    smtpAuth srv fin = .error tooManyChallenges :=
  authLoop_all334 srv fin 10 0 (fun j hj => by simpa using h j hj)

/-- Witness for C5: a server that replies 334 forever. -/
theorem claim_c5_witness :
    smtpAuth (fun _ => ⟨⟨.positiveIntermediate, .unspecified3, 4⟩, []⟩)
      (fun _ => false) = .error tooManyChallenges :=
  claim_c5_challenge_cap
    (fun _ => ⟨⟨.positiveIntermediate, .unspecified3, 4⟩, []⟩)
    (fun _ => false) (fun _ _ => rfl)

/-- C6. When the envelope contains a non-ASCII address and the current
`ServerInfo` does not list SMTPUTF8, `send` returns the client error at
once: the command trace is empty, so no MAIL was written. -/
theorem claim_c6_smtputf8_guard (si : ServerInfo) (env : Envelope)
    (email : List Nat) (srv : Nat → Except SmtpError Response)
    (hutf : env.hasNonAsciiAddresses = true)
    (hfeat : supportsFeature si .smtpUtfEight = false) :
    sendSmtp si env email srv =
      ([], .error (.client
        "Envelope contains non-ascii chars but server does not support SMTPUTF8")) := by
  rw [sendSmtp]
  simp [hutf, hfeat]

/-- Witness for C6: envelope recipient `fóo@example.com` (ó is the UTF-8
pair 0xC3 0xB3), a server info without SMTPUTF8. -/
theorem claim_c6_witness :
    sendSmtp ⟨strBytes "mail.example.com", [.eightBitMime]⟩
      ⟨[strBytes "f" ++ [195, 179] ++ strBytes "o@example.com"], none⟩
      (strBytes "body") (fun _ => .error (.client "unused")) =
      ([], .error (.client
        "Envelope contains non-ascii chars but server does not support SMTPUTF8")) :=
  claim_c6_smtputf8_guard ⟨strBytes "mail.example.com", [.eightBitMime]⟩
    ⟨[strBytes "f" ++ [195, 179] ++ strBytes "o@example.com"], none⟩
    (strBytes "body") (fun _ => .error (.client "unused"))
    (by decide) (by decide)

/-- C9. The tag/key-variant invariant holds for `default_config`,
`update_key` and the RSA case of `new`, but `DkimConfig::new` passes the
literal RSA algorithm to `DkimSigningKey::new`: constructing with the
Ed25519 algorithm stores an RSA key variant while tagging Ed25519, so
the invariant fails there. -/
theorem claim_c9_new_mismatch :
    algorithmAgrees (DkimConfig.new "v1" "example.org" "keydata" []
      ⟨.simple, .simple⟩ .ed25519) = false ∧
    (∀ s d k, algorithmAgrees (DkimConfig.defaultConfig s d k) = true) ∧
    (∀ cfg k a, algorithmAgrees (DkimConfig.updateKey cfg k a) = true) ∧
    (∀ s d k hdrs c, algorithmAgrees (DkimConfig.new s d k hdrs c .rsa) = true) := by
  refine ⟨by decide, fun s d k => rfl, fun cfg k a => ?_, fun s d k hdrs c => rfl⟩
  cases a <;> rfl

/-- C7 counterexample. The claim says `from_response` records `SIZE=42`
when present, but the keyword loop has no `SIZE` arm: the parse of the
EHLO reply with the `SIZE 42` line equals the parse of the same reply
without it, and the resulting features are only 8BITMIME and the two
AUTH mechanisms. -/
theorem claim_c7_counterexample :
    fromResponse ⟨⟨.positiveCompletion, .mailSystem, 0⟩,
      [strBytes "mail.example.com", strBytes "8BITMIME", strBytes "SIZE 42",
       strBytes "AUTH PLAIN CRAM-MD5"]⟩ =
      fromResponse ⟨⟨.positiveCompletion, .mailSystem, 0⟩,
        [strBytes "mail.example.com", strBytes "8BITMIME",
         strBytes "AUTH PLAIN CRAM-MD5"]⟩ ∧
    fromResponse ⟨⟨.positiveCompletion, .mailSystem, 0⟩,
      [strBytes "mail.example.com", strBytes "8BITMIME", strBytes "SIZE 42",
       strBytes "AUTH PLAIN CRAM-MD5"]⟩ =
      some (.ok ⟨strBytes "mail.example.com",
        [.eightBitMime, .authentication .plain, .authentication .cramMd5]⟩) := by
  constructor
  · decide
  · decide

/-- C7 as amended. `from_response` takes the first whitespace token of
line 0 as the hostname and collects an unordered feature set recognizing
only 8BITMIME, SMTPUTF8, STARTTLS and the AUTH mechanisms PLAIN and
CRAM-MD5; `SIZE` and `PIPELINING` lines are ignored. For the example
reply the hostname is `mail.example.com` and the features are 8BITMIME,
AUTH PLAIN and AUTH CRAM-MD5 (no SIZE entry). -/
theorem claim_c7_server_info_amended :
    fromResponse ⟨⟨.positiveCompletion, .mailSystem, 0⟩,
      [strBytes "mail.example.com", strBytes "8BITMIME", strBytes "SIZE 42",
       strBytes "AUTH PLAIN CRAM-MD5"]⟩ =
      some (.ok ⟨strBytes "mail.example.com",
        [.eightBitMime, .authentication .plain, .authentication .cramMd5]⟩) ∧
    supportsFeature ⟨strBytes "mail.example.com",
      [.eightBitMime, .authentication .plain, .authentication .cramMd5]⟩
      .eightBitMime = true ∧
    supportsFeature ⟨strBytes "mail.example.com",
      [.eightBitMime, .authentication .plain, .authentication .cramMd5]⟩
      (.authentication .plain) = true ∧
    supportsFeature ⟨strBytes "mail.example.com",
      [.eightBitMime, .authentication .plain, .authentication .cramMd5]⟩
      (.authentication .cramMd5) = true ∧
    supportsFeature ⟨strBytes "mail.example.com",
      [.eightBitMime, .authentication .plain, .authentication .cramMd5]⟩
      .startTls = false := by
  refine ⟨by decide, by decide, by decide, by decide, by decide⟩

/-- Stripping the leading LF-CR run leaves a list that does not start
with another LF-CR pair (the regex match is maximal). -/
theorem stripCrlfRev_ne_pair :
    ∀ (n : Nat) (l : List Nat), l.length ≤ n →
      ∀ r, stripCrlfRev l ≠ 10 :: 13 :: r := by
  intro n
  induction n with
  | zero =>
    intro l hl r
    have : l = [] := List.eq_nil_of_length_eq_zero (by omega)
    subst this
    simp [stripCrlfRev]
  | succ n ih =>
    intro l hl r
    match l with
    | [] => simp [stripCrlfRev]
    | [b] => simp [stripCrlfRev]
    | a :: b :: rest =>
      rw [stripCrlfRev]
      by_cases hab : a = 10 ∧ b = 13
      · rw [if_pos hab]
        exact ih rest (by simp at hl; omega) r
      · rw [if_neg hab]
        intro hcontra
        apply hab
        have h1 : a = 10 := by injection hcontra
        have h2 : b :: rest = 13 :: r := by
          injection hcontra with hx hy
        have h3 : b = 13 := by injection h2
        exact ⟨h1, h3⟩

/-- Evaluation of simple body canonicalization on bodies that end with
CRLF. -/
theorem dkimSimple_of_rev (body tail : List Nat)
    (h : body.reverse = 10 :: 13 :: tail) :
    dkimCanonicalizeBodySimple body = (stripCrlfRev tail).reverse ++ [13, 10] := by
  unfold dkimCanonicalizeBodySimple
  rw [h]

/-- C4 as amended. Simple body canonicalization replaces a nonempty
maximal trailing run of CRLFs by exactly one CRLF — the output then ends
with one CRLF and not two — while a body that does not end with CRLF
(the empty body included) is returned unchanged; the spec's example
canonicalizes as stated. -/
theorem claim_c4_body_simple_amended :
    (∀ body, endsWithCrlf body = true →
      endsWithCrlf (dkimCanonicalizeBodySimple body) = true ∧
      endsWithDoubleCrlf (dkimCanonicalizeBodySimple body) = false) ∧
    (∀ body, endsWithCrlf body = false →
      dkimCanonicalizeBodySimple body = body) ∧
    dkimCanonicalizeBodySimple (strBytes "test\r\n\r\ntest   \ttest\r\n\r\n\r\n") =
      strBytes "test\r\n\r\ntest   \ttest\r\n" := by
  refine ⟨?_, ?_, by decide⟩
  · intro body h
    rw [endsWithCrlf] at h
    split at h
    case _ b tail heq =>
      rw [dkimSimple_of_rev body tail heq]
      constructor
      · rw [endsWithCrlf, List.reverse_append, List.reverse_reverse]
        rfl
      · rw [endsWithDoubleCrlf, List.reverse_append, List.reverse_reverse]
        show (match 10 :: 13 :: stripCrlfRev tail with
          | 10 :: 13 :: 10 :: 13 :: _ => true
          | _ => false) = false
        split
        case _ t hmatch =>
          exfalso
          have h1 : stripCrlfRev tail = 10 :: 13 :: t := by
            have := hmatch
            injection this with hx hy
            injection hy with hx2 hy2
          exact stripCrlfRev_ne_pair tail.length tail le_rfl t h1
        case _ => rfl
    case _ => exact absurd h (by simp)
  · intro body h
    rw [dkimCanonicalizeBodySimple]
    split
    case _ b tail heq =>
      exfalso
      rw [endsWithCrlf, heq] at h
      simp at h
    case _ => rfl

/-- C4 counterexample. The claim says the empty body canonicalizes to
CRLF; the regex `(\r\n)+$` does not match the empty byte string, so the
code returns the empty body unchanged. -/
theorem claim_c4_counterexample :
    dkimCanonicalizeBodySimple [] = [] ∧ ([] : List Nat) ≠ [13, 10] := by
  constructor
  · rfl
  · simp

/-- Witness for C4 at the bodies "A\r\n\r\n" and "A". -/
theorem claim_c4_witness :
    endsWithCrlf (dkimCanonicalizeBodySimple (strBytes "A\r\n\r\n")) = true ∧
    endsWithDoubleCrlf (dkimCanonicalizeBodySimple (strBytes "A\r\n\r\n")) = false ∧
    dkimCanonicalizeBodySimple (strBytes "A") = strBytes "A" :=
  ⟨(claim_c4_body_simple_amended.1 (strBytes "A\r\n\r\n") (by decide)).1,
   (claim_c4_body_simple_amended.1 (strBytes "A\r\n\r\n") (by decide)).2,
   claim_c4_body_simple_amended.2.1 (strBytes "A") (by decide)⟩

/-- A replacement step of `escCR` passes the head through whenever the
pair at the front is not `\r.`. -/
theorem escCR_cons (c : Char) (l : List Char)
    (h : c ≠ '\r' ∨ l.head? ≠ some '.') : escCR (c :: l) = c :: escCR l := by
  match l with
  | [] => rfl
  | d :: rest =>
    rw [escCR, if_neg]
    rintro ⟨h1, h2⟩
    rcases h with h | h
    · exact h h1
    · subst h2; exact h rfl

/-- A replacement step of `escLF` passes the head through whenever the
pair at the front is not `\n.`. -/
theorem escLF_cons (c : Char) (l : List Char)
    (h : c ≠ '\n' ∨ l.head? ≠ some '.') : escLF (c :: l) = c :: escLF l := by
  match l with
  | [] => rfl
  | d :: rest =>
    rw [escLF, if_neg]
    rintro ⟨h1, h2⟩
    rcases h with h | h
    · exact h h1
    · subst h2; exact h rfl

/-- `escCR` preserves the first character. -/
theorem escCR_head (c : Char) (l : List Char) :
    (escCR (c :: l)).head? = some c := by
  match l with
  | [] => rfl
  | d :: rest =>
    rw [escCR]
    by_cases hcd : c = '\r' ∧ d = '.'
    · obtain ⟨h1, h2⟩ := hcd
      subst h1; subst h2
      simp [escCR]
    · rw [if_neg hcd]; rfl

/-- The line-start flag is irrelevant when the next character is not a
dot. -/
theorem go_indep (c : Char) (rest : List Char) (hc : c ≠ '.') :
    dotStuffGo true (c :: rest) = dotStuffGo false (c :: rest) := by
  have hb : (c == '.') = false := by simp [hc]
  simp [dotStuffGo, hb]

/-- The two sequential replacements of `escape_dot` compute spec-side
dot-stuffing away from a line start: a dot at position 0 is untouched,
dots after CR or LF are doubled. -/
theorem escPair_eq_go : ∀ (n : Nat) (l : List Char), l.length ≤ n →
    escLF (escCR l) = dotStuffGo false l := by
  intro n
  induction n with
  | zero =>
    intro l hl
    have h : l = [] := List.eq_nil_of_length_eq_zero (by omega)
    subst h; rfl
  | succ n ih =>
    intro l hl
    match l with
    | [] => rfl
    | [c] => simp [escCR, escLF, dotStuffGo]
    | c :: d :: rest =>
      have hlen : (d :: rest).length ≤ n := by simp at hl ⊢; omega
      have hlen2 : rest.length ≤ n := by simp at hl ⊢; omega
      by_cases hc : c = '\r'
      · by_cases hd : d = '.'
        · subst hc; subst hd
          rw [escCR, if_pos ⟨rfl, rfl⟩,
            escLF_cons '\r' _ (Or.inl (by decide)),
            escLF_cons '.' _ (Or.inl (by decide)),
            escLF_cons '.' _ (Or.inl (by decide)),
            ih rest hlen2]
          rfl
        · subst hc
          rw [escCR_cons '\r' _ (Or.inr (by simp [hd])),
            escLF_cons '\r' _ (Or.inl (by decide)),
            ih (d :: rest) hlen,
            show dotStuffGo false ('\r' :: d :: rest) =
              '\r' :: dotStuffGo true (d :: rest) from rfl,
            go_indep d rest hd]
      · by_cases hcn : c = '\n'
        · by_cases hd : d = '.'
          · subst hcn; subst hd
            rw [escCR_cons '\n' _ (Or.inl (by decide)),
              escCR_cons '.' _ (Or.inl (by decide))]
            rw [escLF, if_pos ⟨rfl, rfl⟩, ih rest hlen2]
            rfl
          · subst hcn
            rw [escCR_cons '\n' _ (Or.inl (by decide)),
              escLF_cons '\n' _ (Or.inr (by rw [escCR_head]; simp [hd])),
              ih (d :: rest) hlen,
              show dotStuffGo false ('\n' :: d :: rest) =
                '\n' :: dotStuffGo true (d :: rest) from rfl,
              go_indep d rest hd]
        · have hbreak : isLineBreak c = false := by simp [isLineBreak, hc, hcn]
          rw [escCR_cons c _ (Or.inl hc), escLF_cons c _ (Or.inl hcn),
            ih (d :: rest) hlen,
            show dotStuffGo false (c :: d :: rest) =
              c :: dotStuffGo (isLineBreak c) (d :: rest) from rfl,
            hbreak]

/-- `escape_dot` computes exactly the spec-side dot-stuffing: every line
whose first character is a dot (at position 0 or after CR or LF) gains
one extra leading dot, and nothing else changes. -/
theorem escapeDot_eq_dotStuffSpec (s : List Char) :
    escapeDot s = dotStuffSpec s := by
  match s with
  | [] => rfl
  | c :: rest =>
    by_cases hc : c = '.'
    · subst hc
      show escLF (escCR ('.' :: '.' :: rest)) = dotStuffSpec ('.' :: rest)
      rw [escCR_cons '.' _ (Or.inl (by decide)),
        escCR_cons '.' _ (Or.inl (by decide)),
        escLF_cons '.' _ (Or.inl (by decide)),
        escLF_cons '.' _ (Or.inl (by decide)),
        escPair_eq_go rest.length rest le_rfl]
      rfl
    · rw [escapeDot]
      · rw [escPair_eq_go (c :: rest).length _ le_rfl, dotStuffSpec]
        exact (go_indep c rest hc).symm
      · intro tail heq
        exact hc (by injection heq)

/-- C1 as amended. During DATA the engine writes the dot-stuffed body
(every line whose first byte is a dot gains one extra leading dot,
`escape_dot` agreeing with the spec-side stuffing) followed
UNCONDITIONALLY by the CRLF `.` CRLF terminator, even when the body
already ends with CRLF; the body ".hi\r\nok\r\n" is sent as
"..hi\r\nok\r\n\r\n.\r\n". -/
theorem claim_c1_data_wire_amended :
    (∀ body, clientMessageWire body = dotStuffSpec body ++ messageEnding) ∧
    clientMessageWire (".hi\r\nok\r\n".data) = "..hi\r\nok\r\n\r\n.\r\n".data := by
  constructor
  · intro body
    rw [clientMessageWire, escapeDot_eq_dotStuffSpec]
  · decide

/-- C1 counterexample. For the body ".hi\r\nok\r\n", which ends with
CRLF, the wire form still receives the full CRLF `.` CRLF terminator:
the bytes sent are "..hi\r\nok\r\n\r\n.\r\n", not the claimed
"..hi\r\nok\r\n.\r\n". -/
theorem claim_c1_counterexample :
    clientMessageWire (".hi\r\nok\r\n".data) = "..hi\r\nok\r\n\r\n.\r\n".data ∧
    "..hi\r\nok\r\n\r\n.\r\n".data ≠ "..hi\r\nok\r\n.\r\n".data := by
  exact ⟨by decide, by decide⟩

/-- C3 as amended. The signer walks the configured list in order and for
each name takes the value of the FIRST occurrence of that header
(case-insensitive match) — `find_header` is `iter().find(..)` — silently
skipping names with no occurrence; so with duplicated names the
canonicalized signed-headers text contains the first occurrence's value.
Conjunct 1 characterizes `get_raw` as the first matching entry, conjuncts
2 and 3 show how relaxed canonicalization skips or uses it. -/
theorem claim_c3_first_occurrence_amended :
    (∀ (hs : List HeaderValue) (name : String) (v : String),
      getRaw hs name = some v ↔
        ∃ i hv, hs.get? i = some hv ∧
          eqIgnoreAsciiCase name hv.name = true ∧ hv.value = v ∧
          ∀ j hv', j < i → hs.get? j = some hv' →
            eqIgnoreAsciiCase name hv'.name = false) ∧
    (∀ h rest mailHeaders,
      getRaw mailHeaders (lowercaseAscii h) = none →
      dkimCanonicalizeHeaders (h :: rest) mailHeaders .relaxed =
        dkimCanonicalizeHeaders rest mailHeaders .relaxed) ∧
    (∀ h rest mailHeaders v,
      getRaw mailHeaders (lowercaseAscii h) = some v →
      dkimCanonicalizeHeaders (h :: rest) mailHeaders .relaxed =
        (lowercaseAscii h ++ ":" ++ dkimCanonicalizeHeaderValue v .relaxed) ++
          dkimCanonicalizeHeaders rest mailHeaders .relaxed) := by
  refine ⟨?_, ?_, ?_⟩
  · intro hs name v
    induction hs with
    | nil => simp [getRaw, findHeader]
    | cons hv0 tl ih =>
      by_cases h0 : eqIgnoreAsciiCase name hv0.name = true
      · simp only [getRaw, findHeader, List.find?, h0, Option.map_some]
        constructor
        · intro hvv
          refine ⟨0, hv0, rfl, h0, by injection hvv, ?_⟩
          intro j hv' hj hget
          omega
        · rintro ⟨i, hv', hget, heq, hval, hmin⟩
          cases i with
          | zero =>
            have hv0eq : hv0 = hv' := by simpa using hget
            rw [← hv0eq] at hval
            simp [hval]
          | succ i =>
            have hfalse := hmin 0 hv0 (by omega) rfl
            rw [h0] at hfalse
            exact absurd hfalse (by simp)
      · rw [Bool.not_eq_true] at h0
        have hstep : getRaw (hv0 :: tl) name = getRaw tl name := by
          simp [getRaw, findHeader, List.find?, h0]
        rw [hstep, ih]
        constructor
        · rintro ⟨i, hv', hget, heq, hval, hmin⟩
          refine ⟨i + 1, hv', by simpa using hget, heq, hval, ?_⟩
          intro j hvj hj hgetj
          cases j with
          | zero =>
            have hvj0 : hv0 = hvj := by simpa using hgetj
            rw [← hvj0]
            exact h0
          | succ j =>
            exact hmin j hvj (by omega) (by simpa using hgetj)
        · rintro ⟨i, hv', hget, heq, hval, hmin⟩
          cases i with
          | zero =>
            have hv0eq : hv0 = hv' := by simpa using hget
            rw [← hv0eq] at heq
            rw [h0] at heq
            exact absurd heq (by simp)
          | succ i =>
            refine ⟨i, hv', by simpa using hget, heq, hval, ?_⟩
            intro j hvj hj hgetj
            exact hmin (j + 1) hvj (by omega) (by simpa using hgetj)
  · intro h rest mailHeaders hnone
    rw [dkimCanonicalizeHeaders]
    simp only [hnone]
    apply String.ext
    simp
  · intro h rest mailHeaders v hsome
    rw [dkimCanonicalizeHeaders]
    simp only [hsome]

/-- C3 counterexample. Two `Test` headers with values `v1` then `v2`: the
relaxed canonicalization of the list `[Test]` renders the FIRST value,
`test:v1`, while the claim's last-occurrence reading demands `test:v2`. -/
theorem claim_c3_counterexample :
    dkimCanonicalizeHeaders ["Test"] [⟨"Test", "v1"⟩, ⟨"Test", "v2"⟩]
      .relaxed = "test:v1\r\n" ∧
    lastOccurrenceValue [⟨"Test", "v1"⟩, ⟨"Test", "v2"⟩] "Test" = some "v2" ∧
    ("test:v1\r\n" : String) ≠ "test:v2\r\n" := by
  refine ⟨by decide, by decide, by decide⟩

/-- Witness for C3 at a concrete duplicated header list. -/
theorem claim_c3_witness :
    dkimCanonicalizeHeaders ["Test"] [⟨"Test", "v1"⟩, ⟨"Test", "v2"⟩]
      .relaxed =
      (lowercaseAscii "Test" ++ ":" ++ dkimCanonicalizeHeaderValue "v1" .relaxed) ++
        dkimCanonicalizeHeaders [] [⟨"Test", "v1"⟩, ⟨"Test", "v2"⟩] .relaxed :=
  claim_c3_first_occurrence_amended.2.2 "Test" []
    [⟨"Test", "v1"⟩, ⟨"Test", "v2"⟩] "v1" (by decide)
